import Mathlib

/-!
Verification of the ea-imagery-api repository core algorithms.

This file gives a shallow embedding of the three source files and proves
the specified properties about them:

* `src/imagery_api/utils/update_data/geo.py` — the British National Grid
  reference decoder `to_osgb36` and its region-offset table.
* `src/imagery_api/utils/update_data/main.py` — the spatial partitioner
  `tile_gdf`, the pandas-style duplicate removal used by `main`, and the
  `parse_geometry` bounding-square derivation.
* `src/imagery_api/main.py` — the `get_tile` endpoint body and its RGBA
  compositing.

Modelling conventions: Python floats are modelled as `ℚ` (all the
arithmetic performed by the code on the inputs considered is exact);
Python ints as `ℤ` or `ℕ`; strings as Lean `String` restricted to ASCII
(CPython `str.upper` and the regex classes `[A-Z]` and `\d` are modelled
on the ASCII fragment); exceptions as `Except`; the geometries handled by
the partitioner as finite unions of closed axis-aligned rectangles, on
which the validity repair (`make_valid` / zero-buffer) performed by the
source is the identity; the raster read performed by `rasterio` as an
oracle function supplied in the serving environment.
-/

namespace ImageryApi

/-! ## geo.py: the grid-reference decoder -/

/-- ASCII action of CPython `str.upper` on one character (the inputs we
model are ASCII strings, where `upper` adds -32 to codepoints 97..122). -/
def pyUpperChar (c : Char) : Char :=
  if 97 ≤ c.toNat ∧ c.toNat ≤ 122 then Char.ofNat (c.toNat - 32) else c

/-- `gridref.upper()` on an ASCII string. -/
def pyUpper (s : String) : String := String.mk (s.data.map pyUpperChar)

/-- The regex class `[A-Z]`. -/
def isUpperAlpha (c : Char) : Bool := decide (65 ≤ c.toNat) && decide (c.toNat ≤ 90)

/-- The regex class `\d` on ASCII input. -/
def isAsciiDigit (c : Char) : Bool := decide (48 ≤ c.toNat) && decide (c.toNat ≤ 57)

/-- An ASCII letter of either case (used to state the format the spec
describes; the source normalizes case before matching). -/
def isAsciiLetter (c : Char) : Bool :=
  (decide (65 ≤ c.toNat) && decide (c.toNat ≤ 90)) ||
    (decide (97 ≤ c.toNat) && decide (c.toNat ≤ 122))

/-- The `regions` table of `_init_regions_and_offsets`, row by row as
written in the source. -/
def regions0 : List (List String) :=
  [["HL", "HM", "HN", "HO", "HP", "JL", "JM"],
   ["HQ", "HR", "HS", "HT", "HU", "JQ", "JR"],
   ["HV", "HW", "HX", "HY", "HZ", "JV", "JW"],
   ["NA", "NB", "NC", "ND", "NE", "OA", "OB"],
   ["NF", "NG", "NH", "NJ", "NK", "OF", "OG"],
   ["NL", "NM", "NN", "NO", "NP", "OL", "OM"],
   ["NQ", "NR", "NS", "NT", "NU", "OQ", "OR"],
   ["NV", "NW", "NX", "NY", "NZ", "OV", "OW"],
   ["SA", "SB", "SC", "SD", "SE", "TA", "TB"],
   ["SF", "SG", "SH", "SJ", "SK", "TF", "TG"],
   ["SL", "SM", "SN", "SO", "SP", "TL", "TM"],
   ["SQ", "SR", "SS", "ST", "SU", "TQ", "TR"],
   ["SV", "SW", "SX", "SY", "SZ", "TV", "TW"]]

/-- `list(zip(*regions[::-1]))`: reverse the rows, then transpose. -/
def regionsT : List (List String) := (regions0.reverse).transpose

/-- The `offset_map` dict: `offset_map[regions[i][j]] = (1e5*i, 1e5*j)`
for `i < len(regions)` and `j < len(regions[0])` (after the transpose).
The float offsets `1e5*i` are exact, so they are modelled in `ℤ`. -/
def offset_map : List (String × ℤ × ℤ) :=
  (List.range regionsT.length).flatMap fun i =>
    (List.range ((regionsT.headD []).length)).map fun j =>
      ((regionsT.getD i []).getD j "", ((100000 : ℤ) * i, (100000 : ℤ) * j))

/-- Python dict access `_offset_map[region]`, `None` for a `KeyError`. -/
def lookupRegion (k : String) (m : List (String × ℤ × ℤ)) : Option (ℤ × ℤ) :=
  match m.find? (fun p => decide (p.1 = k)) with
  | some p => some p.2
  | none => none

/-- The two failure modes of `to_osgb36` (both raised as `BNGError` in the
source, distinguished by their message). -/
inductive BNGError where
  | InvalidFormat
  | UnknownRegion
deriving DecidableEq, Repr

instance {ε α : Type} [DecidableEq ε] [DecidableEq α] : DecidableEq (Except ε α) := fun a b =>
  match a, b with
  | .ok x, .ok y => if h : x = y then .isTrue (by rw [h]) else .isFalse (by simp [h])
  | .error x, .error y => if h : x = y then .isTrue (by rw [h]) else .isFalse (by simp [h])
  | .ok _, .error _ => .isFalse (by simp)
  | .error _, .ok _ => .isFalse (by simp)

/-- `int()` of a string of ASCII digits. -/
def digitsVal (ds : List Char) : ℤ :=
  ds.foldl (fun a c => 10 * a + ((c.toNat : ℤ) - 48)) 0

/-- The `$` anchor of CPython `re` matches at the end of the string or
just before one newline at the end of the string, so the digit group is
matched against the tail with one trailing newline stripped. -/
def stripDollarNewline (l : List Char) : List Char :=
  match l.getLast? with
  | some c => if c = Char.ofNat 10 then l.dropLast else l
  | none => l

/-- `re.match` of the anchored pattern of `to_osgb36`: two characters of
class `[A-Z]`, then a digit group of length 4, 6, 8 or 10, then the `$`
anchor (which also accepts a single trailing newline). Returns the two
letters and the digit group. -/
def matchGridref (l : List Char) : Option (Char × Char × List Char) :=
  match l with
  | c1 :: c2 :: rest =>
    let body := stripDollarNewline rest
    if isUpperAlpha c1 && isUpperAlpha c2 && body.all isAsciiDigit &&
        (body.length == 4 || body.length == 6 || body.length == 8 || body.length == 10)
    then some (c1, c2, body)
    else none
  | _ => none

/-- `to_osgb36(gridref)` of geo.py on a string input. -/
def to_osgb36 (gridref : String) : Except BNGError (ℤ × ℤ × ℤ) :=
  let g := pyUpper gridref
  match matchGridref g.data with
  | none => .error .InvalidFormat
  | some (c1, c2, coords) =>
    match lookupRegion (String.mk [c1, c2]) offset_map with
    | none => .error .UnknownRegion
    | some (x_offset, y_offset) =>
      let half_figs := coords.length / 2
      let easting := digitsVal (coords.take half_figs)
      let northing := digitsVal (coords.drop half_figs)
      let scale_factor : ℤ := 10 ^ (5 - half_figs)
      .ok (easting * scale_factor + x_offset,
           northing * scale_factor + y_offset,
           10 ^ (6 - half_figs))

/-- The format named by the specification: exactly two letters followed by
exactly 4, 6, 8 or 10 digits and nothing else (case-insensitive). -/
def strictGridrefFormat (s : String) : Bool :=
  match s.data with
  | c1 :: c2 :: rest =>
      isAsciiLetter c1 && isAsciiLetter c2 && rest.all isAsciiDigit &&
      (rest.length == 4 || rest.length == 6 || rest.length == 8 || rest.length == 10)
  | _ => false

/-- The format actually accepted by the source's regex: the strict format
up to one trailing newline admitted by the `$` anchor. -/
def gridrefFormatLoose (s : String) : Bool :=
  strictGridrefFormat (String.mk (stripDollarNewline s.data))

/-- The 2-letter prefix (after case normalization) is an assigned region
code of the offset table. -/
def knownRegion (s : String) : Bool :=
  (lookupRegion (String.mk ((pyUpper s).data.take 2)) offset_map).isSome

/-! ## main.py (update_data): the spatial partitioner `tile_gdf` -/

/-- A closed axis-aligned rectangle, as produced by `shapely.geometry.box`
and as used for bounding boxes. -/
structure Box where
  minx : ℚ
  miny : ℚ
  maxx : ℚ
  maxy : ℚ
deriving DecidableEq, Repr

/-- A rectangle that is geometrically non-degenerate-or-empty: its point
set is the product of two nonempty closed intervals. -/
def Box.wf (b : Box) : Prop := b.minx ≤ b.maxx ∧ b.miny ≤ b.maxy

/-- Membership of a point in the closed rectangle. -/
def inBox (p : ℚ × ℚ) (b : Box) : Prop :=
  b.minx ≤ p.1 ∧ p.1 ≤ b.maxx ∧ b.miny ≤ p.2 ∧ p.2 ≤ b.maxy

/-- Membership of a point in the interior of the rectangle. -/
def inOpenBox (p : ℚ × ℚ) (b : Box) : Prop :=
  b.minx < p.1 ∧ p.1 < b.maxx ∧ b.miny < p.2 ∧ p.2 < b.maxy

/-- Two rectangles share at least one point (the semantics of shapely
`intersects`, which includes boundary touching). -/
def Intersects (a b : Box) : Prop := ∃ p : ℚ × ℚ, inBox p a ∧ inBox p b

/-- The computation shapely performs to decide `intersects` of two
axis-aligned rectangles: interval overlap on both axes. -/
def boxIntersects (a b : Box) : Bool :=
  decide (a.minx ≤ b.maxx) && decide (b.minx ≤ a.maxx) &&
    decide (a.miny ≤ b.maxy) && decide (b.miny ≤ a.maxy)

/-- Python `%` for a positive float divisor: `a % s = a - s*floor(a/s)`,
a value in `[0, s)`. -/
def pyMod (a s : ℚ) : ℚ := a - s * ⌊a / s⌋

/-- `gdf.total_bounds`: the componentwise min/max of the geometry bounds
(the source's boundary is modelled as a finite union of rectangles). -/
def total_bounds : List Box → Box
  | [] => ⟨0, 0, 0, 0⟩
  | b :: bs =>
      bs.foldl (fun acc c =>
        ⟨min acc.minx c.minx, min acc.miny c.miny,
         max acc.maxx c.maxx, max acc.maxy c.maxy⟩) b

/-- `minx = minx - (minx % side_length)` of `tile_gdf`. -/
def expMinX (g : List Box) (s : ℚ) : ℚ :=
  (total_bounds g).minx - pyMod (total_bounds g).minx s

/-- `miny = miny - (miny % side_length)` of `tile_gdf`. -/
def expMinY (g : List Box) (s : ℚ) : ℚ :=
  (total_bounds g).miny - pyMod (total_bounds g).miny s

/-- `maxx = maxx + (side_length - maxx % side_length)` of `tile_gdf`. -/
def expMaxX (g : List Box) (s : ℚ) : ℚ :=
  (total_bounds g).maxx + (s - pyMod (total_bounds g).maxx s)

/-- `maxy = maxy + (side_length - maxy % side_length)` of `tile_gdf`. -/
def expMaxY (g : List Box) (s : ℚ) : ℚ :=
  (total_bounds g).maxy + (s - pyMod (total_bounds g).maxy s)

/-- Length of `np.arange(minx, maxx, side_length)`:
`ceil((stop - start) / step)` values `start + k*step`. -/
def gridNx (g : List Box) (s : ℚ) : ℕ := (⌈(expMaxX g s - expMinX g s) / s⌉).toNat

/-- Length of `np.arange(miny, maxy, side_length)`. -/
def gridNy (g : List Box) (s : ℚ) : ℕ := (⌈(expMaxY g s - expMinY g s) / s⌉).toNat

/-- The box built from grid position `(i, j)` (row `i`, column `j`):
`box(xmin, ymin, xmin + side_length, ymin + side_length)`. -/
def gridCell (x0 y0 s : ℚ) (i j : ℕ) : Box :=
  ⟨x0 + j * s, y0 + i * s, x0 + j * s + s, y0 + i * s + s⟩

/-- The flattened `np.meshgrid` box list: `xx.flatten()` of a meshgrid is
row-major, the y index varying slowest and the x index fastest. -/
def gridCells (x0 y0 s : ℚ) (nx ny : ℕ) : List Box :=
  (List.range ny).flatMap fun i => (List.range nx).map fun j => gridCell x0 y0 s i j

/-- `tile_gdf(gdf, side_length, tile_crs, origin_x, origin_y, filter_empty)`.
The reprojection `to_crs` is an external collaborator: the boundary is
taken already expressed in the tile CRS. `make_valid` and `buffer(0)` are
the identity on (unions of) rectangles, and a box intersects
`gdf.union_all()` exactly when it intersects some member rectangle. The
`origin_x` / `origin_y` parameters are kept with the source's signature. -/
def tile_gdf (gdf : List Box) (side_length : ℚ) (origin_x origin_y : ℚ)
    (filter_empty : Bool) : List Box :=
  let cells := gridCells (expMinX gdf side_length) (expMinY gdf side_length)
    side_length (gridNx gdf side_length) (gridNy gdf side_length)
  if filter_empty then
    cells.filter (fun c => gdf.any fun b => boxIntersects c b)
  else cells

/-! ## main.py (update_data): dedup and geometry derivation -/

/-- One flattened result row (the values of its flattened columns). -/
abbrev Row := List String

/-- `df[~df.duplicated()]`: keep each row whose value has not occurred at
an earlier position; `seen` holds the values already passed. -/
def dropDuplicatesAux {α : Type} [DecidableEq α] (seen : List α) : List α → List α
  | [] => []
  | x :: xs => if x ∈ seen then dropDuplicatesAux seen xs
               else x :: dropDuplicatesAux (x :: seen) xs

/-- `products_df[~products_df.duplicated()]` of `main`. -/
def dropDuplicates {α : Type} [DecidableEq α] (l : List α) : List α := dropDuplicatesAux [] l

/-- The geometry `parse_geometry` derives from one tile reference:
decode, halve the resolution, and build the square
`box(x, y, x + resolution/2, y + resolution/2)`. -/
def parse_geometry_row (tile : String) : Except BNGError Box :=
  (to_osgb36 tile).map fun v =>
    Box.mk (v.1 : ℚ) (v.2.1 : ℚ) ((v.1 : ℚ) + (v.2.2 : ℚ) / 2) ((v.2.1 : ℚ) + (v.2.2 : ℚ) / 2)

/-- `parse_geometry` over the `tile_id` column (the comprehension raises
on the first undecodable reference). -/
def parse_geometry (tileIds : List String) : Except BNGError (List Box) :=
  tileIds.mapM parse_geometry_row

/-! ## main.py (serving): the `get_tile` endpoint -/

/-- `np.clip(data, 0, 255)` on one integer sample. -/
def pyClip (v : ℤ) : ℤ := max 0 (min v 255)

/-- `(data != 0).any(axis=0).astype(np.uint8) * 255` at one pixel of the
clipped array. -/
def maskVal (p : ℤ × ℤ × ℤ) : ℤ :=
  (if pyClip p.1 ≠ 0 ∨ pyClip p.2.1 ≠ 0 ∨ pyClip p.2.2 ≠ 0 then 1 else 0) * 255

/-- One RGBA pixel of the composited tile: the three clipped bands with
the mask concatenated as the fourth band. -/
def compositePixel (p : ℤ × ℤ × ℤ) : ℤ × ℤ × ℤ × ℤ :=
  (pyClip p.1, pyClip p.2.1, pyClip p.2.2, maskVal p)

/-- The whole clip/mask/concatenate step of `get_tile`, on the pixel-major
view of the 3-band array. -/
def compositeRGBA (data : List (List (ℤ × ℤ × ℤ))) : List (List (ℤ × ℤ × ℤ × ℤ)) :=
  data.map fun row => row.map compositePixel

/-- `np.zeros((256, 256, 4), dtype=np.uint8)`: the fallback fully
transparent tile. -/
def blankTile : List (List (ℤ × ℤ × ℤ × ℤ)) :=
  List.replicate 256 (List.replicate 256 (0, 0, 0, 0))

/-- The serving environment: the sorted `.tif` listing of `data/cogs` and
the rasterio windowed read (3 bands resampled to 256x256) as an oracle
that may fail with any exception. -/
structure ServeEnv where
  tifs : List String
  readWindow : String → ℤ → ℤ → ℤ → Except String (List (List (ℤ × ℤ × ℤ)))

/-- The body of the `get_tile(x, y, z)` endpoint. The source locates the
raster with `list(tile_dir.glob("*.tif"))[0]` before entering its
`try` block, so an empty listing raises `IndexError` out of the handler;
every failure inside the `try` block (the windowed read, decoding,
compositing, encoding) is caught and answered with the blank tile. An
`.error` result models an exception escaping to the transport layer. -/
def get_tile (env : ServeEnv) (x y z : ℤ) : Except String (List (List (ℤ × ℤ × ℤ × ℤ))) :=
  match env.tifs with
  | [] => .error "IndexError: list index out of range"
  | tile_path :: _ =>
    match env.readWindow tile_path x y z with
    | .ok data => .ok (compositeRGBA data)
    | .error _ => .ok blankTile

/-! ## Helper lemmas: characters and the decoder -/

lemma bool_eq_of_iff {a b : Bool} (h : a = true ↔ b = true) : a = b := by
  cases a <;> cases b <;> simp_all

lemma char_eq_iff_toNat (a b : Char) : a = b ↔ a.toNat = b.toNat := by
  constructor
  · intro h; rw [h]
  · intro h
    exact Char.eq_of_val_eq (UInt32.toNat.inj h)

lemma char_ofNat_toNat {n : ℕ} (h : n.isValidChar) : (Char.ofNat n).toNat = n := by
  rw [Char.ofNat, dif_pos h]
  rfl

lemma pyUpperChar_toNat_lower {c : Char} (h : 97 ≤ c.toNat ∧ c.toNat ≤ 122) :
    (pyUpperChar c).toNat = c.toNat - 32 := by
  rw [pyUpperChar, if_pos h]
  exact char_ofNat_toNat (Or.inl (by omega))

lemma pyUpperChar_eq_self {c : Char} (h : ¬(97 ≤ c.toNat ∧ c.toNat ≤ 122)) :
    pyUpperChar c = c := if_neg h

lemma isUpperAlpha_pyUpperChar (c : Char) : isUpperAlpha (pyUpperChar c) = isAsciiLetter c := by
  by_cases h : 97 ≤ c.toNat ∧ c.toNat ≤ 122
  · have ht := pyUpperChar_toNat_lower h
    simp only [isUpperAlpha, isAsciiLetter, ht]
    have h65 : 65 ≤ c.toNat - 32 := by omega
    have h90 : c.toNat - 32 ≤ 90 := by omega
    simp [h65, h90, h.1, h.2]
  · rw [pyUpperChar_eq_self h]
    apply bool_eq_of_iff
    simp only [isUpperAlpha, isAsciiLetter, Bool.or_eq_true, Bool.and_eq_true,
      decide_eq_true_eq]
    omega

lemma isAsciiDigit_pyUpperChar (c : Char) : isAsciiDigit (pyUpperChar c) = isAsciiDigit c := by
  by_cases h : 97 ≤ c.toNat ∧ c.toNat ≤ 122
  · have ht := pyUpperChar_toNat_lower h
    simp only [isAsciiDigit, ht]
    have h1 : ¬(c.toNat - 32 ≤ 57) := by omega
    have h2 : ¬(c.toNat ≤ 57) := by omega
    simp [h1, h2]
  · rw [pyUpperChar_eq_self h]

lemma pyUpperChar_eq_newline_iff (c : Char) :
    (pyUpperChar c = Char.ofNat 10) ↔ (c = Char.ofNat 10) := by
  have h10 : (Char.ofNat 10).toNat = 10 := char_ofNat_toNat (Or.inl (by omega))
  by_cases h : 97 ≤ c.toNat ∧ c.toNat ≤ 122
  · rw [char_eq_iff_toNat, char_eq_iff_toNat, pyUpperChar_toNat_lower h, h10]
    omega
  · rw [pyUpperChar_eq_self h]

lemma pyUpperChar_of_digit {c : Char} (h : isAsciiDigit c = true) : pyUpperChar c = c := by
  apply pyUpperChar_eq_self
  simp only [isAsciiDigit, Bool.and_eq_true, decide_eq_true_eq] at h
  omega

lemma map_pyUpperChar_of_digits {l : List Char} (h : l.all isAsciiDigit = true) :
    l.map pyUpperChar = l := by
  have : l.map pyUpperChar = l.map id := by
    apply List.map_congr_left
    intro c hc
    rw [List.all_eq_true] at h
    exact pyUpperChar_of_digit (h c hc)
  rw [this, List.map_id]

lemma stripDollarNewline_map_pyUpper (l : List Char) :
    stripDollarNewline (l.map pyUpperChar) = (stripDollarNewline l).map pyUpperChar := by
  cases hl : l.getLast? with
  | none =>
    have h2 : (l.map pyUpperChar).getLast? = none := by
      rw [List.getLast?_map, hl]; rfl
    simp only [stripDollarNewline, hl, h2]
  | some c =>
    have h2 : (l.map pyUpperChar).getLast? = some (pyUpperChar c) := by
      rw [List.getLast?_map, hl]; rfl
    simp only [stripDollarNewline, hl, h2]
    by_cases hc : c = Char.ofNat 10
    · rw [if_pos ((pyUpperChar_eq_newline_iff c).mpr hc), if_pos hc, ← List.map_dropLast]
    · rw [if_neg (fun hcontra => hc ((pyUpperChar_eq_newline_iff c).mp hcontra)), if_neg hc]

lemma stripDollarNewline_of_digits {l : List Char} (h : l.all isAsciiDigit = true) :
    stripDollarNewline l = l := by
  cases hl : l.getLast? with
  | none => simp only [stripDollarNewline, hl]
  | some c =>
    have hmem : c ∈ l := by
      rcases List.getLast?_eq_some_iff.mp hl with ⟨ys, rfl⟩
      simp
    have hc : isAsciiDigit c = true := by
      rw [List.all_eq_true] at h
      exact h c hmem
    have hne : ¬(c = Char.ofNat 10) := by
      intro hcontra
      rw [char_eq_iff_toNat, char_ofNat_toNat (Or.inl (by omega))] at hcontra
      simp only [isAsciiDigit, Bool.and_eq_true, decide_eq_true_eq] at hc
      omega
    simp only [stripDollarNewline, hl, if_neg hne]

lemma stripDollarNewline_cons_cons {c1 c2 : Char} {l : List Char} (h : l ≠ []) :
    stripDollarNewline (c1 :: c2 :: l) = c1 :: c2 :: stripDollarNewline l := by
  cases hl : l.getLast? with
  | none => exact absurd (List.getLast?_eq_none_iff.mp hl) h
  | some c =>
    have h2 : (c1 :: c2 :: l).getLast? = some c := by
      rcases List.getLast?_eq_some_iff.mp hl with ⟨ys, rfl⟩
      rw [show c1 :: c2 :: (ys ++ [c]) = (c1 :: c2 :: ys) ++ [c] by simp]
      exact List.getLast?_concat _
    simp only [stripDollarNewline, hl, h2]
    by_cases hc : c = Char.ofNat 10
    · rw [if_pos hc, if_pos hc, List.dropLast_cons₂, List.dropLast_cons_of_ne_nil h]
    · rw [if_neg hc, if_neg hc]

lemma lookupRegion_some {k : String} {m : List (String × ℤ × ℤ)} {v : ℤ × ℤ}
    (h : lookupRegion k m = some v) : ∃ p, p ∈ m ∧ p.1 = k ∧ p.2 = v := by
  rw [lookupRegion] at h
  cases hf : m.find? (fun p => decide (p.1 = k)) with
  | none => rw [hf] at h; exact absurd h (by simp)
  | some p =>
    rw [hf] at h
    refine ⟨p, List.mem_of_find?_eq_some hf, ?_, by simpa using h⟩
    have := List.find?_some hf
    simpa using this

lemma offset_map_keys_upper :
    offset_map.all (fun p => p.1.data.length == 2 && p.1.data.all isUpperAlpha) = true := by
  decide

lemma lookupRegion_key_upper {u1 u2 : Char} {xo yo : ℤ}
    (h : lookupRegion (String.mk [u1, u2]) offset_map = some (xo, yo)) :
    isUpperAlpha u1 = true ∧ isUpperAlpha u2 = true := by
  rcases lookupRegion_some h with ⟨p, hmem, hkey, -⟩
  have hall := offset_map_keys_upper
  rw [List.all_eq_true] at hall
  have hk := hall p hmem
  rw [hkey] at hk
  simp only [Bool.and_eq_true, beq_iff_eq] at hk
  have := hk.2
  rw [List.all_eq_true] at this
  exact ⟨this u1 (by simp), this u2 (by simp)⟩

/-! ## Claim theorems: the decoder (C1, C2, C3) -/

/-- Claim C1: for every grid-reference string whose 2-letter prefix is in
the region-offset table (after case normalization) and whose digit run has
length `2*halfLen` with `halfLen` in 2..5, `to_osgb36` returns
`eastingDigits*10^(5-halfLen) + xOffset`,
`northingDigits*10^(5-halfLen) + yOffset` and resolution
`10^(6-halfLen)`. The function is a pure Lean function of the input
string, so purity and determinism hold by construction. -/
theorem C1_decode_formula (c1 c2 : Char) (ds : List Char) (halfLen : ℕ) (xo yo : ℤ)
    (hhalf : halfLen = 2 ∨ halfLen = 3 ∨ halfLen = 4 ∨ halfLen = 5)
    (hlen : ds.length = 2 * halfLen)
    (hds : ds.all isAsciiDigit = true)
    (hreg : lookupRegion (String.mk [pyUpperChar c1, pyUpperChar c2]) offset_map =
      some (xo, yo)) :
    to_osgb36 (String.mk (c1 :: c2 :: ds)) =
      .ok (digitsVal (ds.take halfLen) * 10 ^ (5 - halfLen) + xo,
           digitsVal (ds.drop halfLen) * 10 ^ (5 - halfLen) + yo,
           10 ^ (6 - halfLen)) := by
  obtain ⟨hu1, hu2⟩ := lookupRegion_key_upper hreg
  have hg : (pyUpper (String.mk (c1 :: c2 :: ds))).data =
      pyUpperChar c1 :: pyUpperChar c2 :: ds := by
    show (c1 :: c2 :: ds).map pyUpperChar = _
    rw [List.map_cons, List.map_cons, map_pyUpperChar_of_digits hds]
  have hlen4 : (ds.length == 4 || ds.length == 6 || ds.length == 8 ||
      ds.length == 10) = true := by
    rw [hlen]
    rcases hhalf with h | h | h | h <;> subst h <;> decide
  have hm : matchGridref (pyUpper (String.mk (c1 :: c2 :: ds))).data =
      some (pyUpperChar c1, pyUpperChar c2, ds) := by
    rw [hg]
    show (if _ then some (pyUpperChar c1, pyUpperChar c2, stripDollarNewline ds)
          else none) = _
    rw [stripDollarNewline_of_digits hds]
    rw [if_pos (by rw [hu1, hu2, hds, hlen4]; rfl)]
  have hdiv : ds.length / 2 = halfLen := by omega
  simp only [to_osgb36, hm, hreg, hdiv]

/-- Claim C1 witness: the theorem applied to the concrete reference
NT2755072950. -/
theorem C1_decode_formula_witness :
    to_osgb36 (String.mk ('N' :: 'T' :: "2755072950".data)) = .ok (327550, 672950, 10) := by
  have h := C1_decode_formula 'N' 'T' "2755072950".data 5 300000 600000
    (by decide) (by decide) (by decide) (by decide)
  rw [h]
  decide

/-- Claim C2 counterexample: the specification's first test vector claims
resolution 1 for the 10-figure reference, but the source computes
`10 ** (6 - half_figs) = 10`. -/
theorem C2_counterexample :
    to_osgb36 "NT2755072950" ≠ .ok (327550, 672950, 1) ∧
    to_osgb36 "NT2755072950" = .ok (327550, 672950, 10) := by
  constructor
  · decide
  · decide

/-- Claim C2 as amended: all four test vectors hold with the resolutions
the code computes: 10 for the 10-figure reference and 1000 for the three
6-figure references. -/
theorem C2_amended_vectors :
    to_osgb36 "NT2755072950" = .ok (327550, 672950, 10) ∧
    to_osgb36 "HU431392" = .ok (443100, 1139200, 1000) ∧
    to_osgb36 "SJ637560" = .ok (363700, 356000, 1000) ∧
    to_osgb36 "TV374354" = .ok (537400, 35400, 1000) := by
  refine ⟨by decide, by decide, by decide, by decide⟩

/-! Classification of every decoder outcome. -/

lemma all_digit_map_pyUpper (l : List Char) :
    (l.map pyUpperChar).all isAsciiDigit = l.all isAsciiDigit := by
  induction l with
  | nil => rfl
  | cons x xs ih => simp [List.all_cons, isAsciiDigit_pyUpperChar, ih]

lemma strict_false_of_short {l : List Char} (h : l.length < 2) :
    strictGridrefFormat (String.mk l) = false := by
  match l, h with
  | [], _ => rfl
  | [c], _ => rfl

lemma strip_length_le (l : List Char) : (stripDollarNewline l).length ≤ l.length := by
  cases hl : l.getLast? with
  | none => simp only [stripDollarNewline, hl]; exact le_refl _
  | some c =>
    simp only [stripDollarNewline, hl]
    by_cases hc : c = Char.ofNat 10
    · rw [if_pos hc, List.length_dropLast]; exact Nat.sub_le _ _
    · rw [if_neg hc]

lemma matchGridref_cons_cons (c1 c2 : Char) (rest : List Char) :
    matchGridref (c1 :: c2 :: rest) =
      if (isUpperAlpha c1 && isUpperAlpha c2 &&
          (stripDollarNewline rest).all isAsciiDigit &&
          ((stripDollarNewline rest).length == 4 || (stripDollarNewline rest).length == 6 ||
           (stripDollarNewline rest).length == 8 || (stripDollarNewline rest).length == 10))
      then some (c1, c2, stripDollarNewline rest) else none := rfl

lemma strict_cons_cons (c1 c2 : Char) (rest : List Char) :
    strictGridrefFormat (String.mk (c1 :: c2 :: rest)) =
      (isAsciiLetter c1 && isAsciiLetter c2 && rest.all isAsciiDigit &&
       (rest.length == 4 || rest.length == 6 || rest.length == 8 ||
        rest.length == 10)) := rfl

lemma to_osgb36_classify (s : String) :
    (gridrefFormatLoose s = false → to_osgb36 s = .error .InvalidFormat) ∧
    (gridrefFormatLoose s = true → knownRegion s = false →
      to_osgb36 s = .error .UnknownRegion) ∧
    (gridrefFormatLoose s = true → knownRegion s = true →
      ∃ v, to_osgb36 s = .ok v) := by
  obtain ⟨l⟩ := s
  match l with
  | [] =>
    exact ⟨fun _ => rfl, fun h _ => absurd h (by decide), fun h _ => absurd h (by decide)⟩
  | [c] =>
    have hloose : gridrefFormatLoose (String.mk [c]) = false := by
      show strictGridrefFormat (String.mk (stripDollarNewline [c])) = false
      exact strict_false_of_short (lt_of_le_of_lt (strip_length_le [c]) (by norm_num))
    exact ⟨fun _ => rfl,
      fun h _ => by rw [hloose] at h; exact absurd h (by simp),
      fun h _ => by rw [hloose] at h; exact absurd h (by simp)⟩
  | c1 :: c2 :: rest =>
    by_cases hrest : rest = []
    · subst hrest
      have hs2 : stripDollarNewline [c1, c2] =
          if c2 = Char.ofNat 10 then [c1] else [c1, c2] := rfl
      have hloose : gridrefFormatLoose (String.mk [c1, c2]) = false := by
        show strictGridrefFormat (String.mk (stripDollarNewline [c1, c2])) = false
        rw [hs2]
        by_cases hc : c2 = Char.ofNat 10
        · rw [if_pos hc]
          exact strict_false_of_short (by norm_num)
        · rw [if_neg hc, strict_cons_cons]
          simp
      have hmg : matchGridref (pyUpper (String.mk [c1, c2])).data = none := by
        show matchGridref [pyUpperChar c1, pyUpperChar c2] = none
        rw [show ([pyUpperChar c1, pyUpperChar c2] : List Char) =
          pyUpperChar c1 :: pyUpperChar c2 :: [] from rfl, matchGridref_cons_cons]
        simp [stripDollarNewline]
      have hto : to_osgb36 (String.mk [c1, c2]) = .error .InvalidFormat := by
        simp only [to_osgb36, hmg]
      exact ⟨fun _ => hto,
        fun h _ => by rw [hloose] at h; exact absurd h (by simp),
        fun h _ => by rw [hloose] at h; exact absurd h (by simp)⟩
    · have hstrip : stripDollarNewline (c1 :: c2 :: rest) =
          c1 :: c2 :: stripDollarNewline rest := stripDollarNewline_cons_cons hrest
      have hloose_eq : gridrefFormatLoose (String.mk (c1 :: c2 :: rest)) =
          (isAsciiLetter c1 && isAsciiLetter c2 &&
            (stripDollarNewline rest).all isAsciiDigit &&
            ((stripDollarNewline rest).length == 4 ||
             (stripDollarNewline rest).length == 6 ||
             (stripDollarNewline rest).length == 8 ||
             (stripDollarNewline rest).length == 10)) := by
        show strictGridrefFormat (String.mk (stripDollarNewline (c1 :: c2 :: rest))) = _
        rw [hstrip, strict_cons_cons]
      have hmg_eq : matchGridref (pyUpper (String.mk (c1 :: c2 :: rest))).data =
          if (isAsciiLetter c1 && isAsciiLetter c2 &&
              (stripDollarNewline rest).all isAsciiDigit &&
              ((stripDollarNewline rest).length == 4 ||
               (stripDollarNewline rest).length == 6 ||
               (stripDollarNewline rest).length == 8 ||
               (stripDollarNewline rest).length == 10))
          then some (pyUpperChar c1, pyUpperChar c2,
            (stripDollarNewline rest).map pyUpperChar)
          else none := by
        show matchGridref
          (pyUpperChar c1 :: pyUpperChar c2 :: rest.map pyUpperChar) = _
        rw [matchGridref_cons_cons, stripDollarNewline_map_pyUpper,
          all_digit_map_pyUpper, isUpperAlpha_pyUpperChar, isUpperAlpha_pyUpperChar]
        simp only [List.length_map]
      by_cases hcond : (isAsciiLetter c1 && isAsciiLetter c2 &&
          (stripDollarNewline rest).all isAsciiDigit &&
          ((stripDollarNewline rest).length == 4 ||
           (stripDollarNewline rest).length == 6 ||
           (stripDollarNewline rest).length == 8 ||
           (stripDollarNewline rest).length == 10)) = true
      · rw [if_pos hcond] at hmg_eq
        have hkey : String.mk ((pyUpper (String.mk (c1 :: c2 :: rest))).data.take 2) =
            String.mk [pyUpperChar c1, pyUpperChar c2] := rfl
        cases hlk : lookupRegion (String.mk [pyUpperChar c1, pyUpperChar c2]) offset_map with
        | none =>
          have hto : to_osgb36 (String.mk (c1 :: c2 :: rest)) = .error .UnknownRegion := by
            simp only [to_osgb36, hmg_eq, hlk]
          have hkn : knownRegion (String.mk (c1 :: c2 :: rest)) = false := by
            show (lookupRegion (String.mk
              ((pyUpper (String.mk (c1 :: c2 :: rest))).data.take 2)) offset_map).isSome = false
            rw [hkey, hlk]
            rfl
          exact ⟨fun h => by rw [hloose_eq, hcond] at h; exact absurd h (by simp),
            fun _ _ => hto,
            fun _ hk => by rw [hkn] at hk; exact absurd hk (by simp)⟩
        | some v =>
          obtain ⟨xo, yo⟩ := v
          have hok : (to_osgb36 (String.mk (c1 :: c2 :: rest))).isOk = true := by
            simp only [to_osgb36, hmg_eq, hlk]
            rfl
          have hto : ∃ w, to_osgb36 (String.mk (c1 :: c2 :: rest)) = .ok w := by
            cases hcase : to_osgb36 (String.mk (c1 :: c2 :: rest)) with
            | ok w => exact ⟨w, rfl⟩
            | error e => rw [hcase] at hok; exact absurd hok (by simp [Except.isOk, Except.toBool])
          have hkn : knownRegion (String.mk (c1 :: c2 :: rest)) = true := by
            show (lookupRegion (String.mk
              ((pyUpper (String.mk (c1 :: c2 :: rest))).data.take 2)) offset_map).isSome = true
            rw [hkey, hlk]
            rfl
          obtain ⟨w, hw⟩ := hto
          exact ⟨fun h => by rw [hloose_eq, hcond] at h; exact absurd h (by simp),
            fun _ hk => by rw [hkn] at hk; exact absurd hk (by simp),
            fun _ _ => ⟨w, hw⟩⟩
      · rw [if_neg hcond] at hmg_eq
        have hto : to_osgb36 (String.mk (c1 :: c2 :: rest)) = .error .InvalidFormat := by
          simp only [to_osgb36, hmg_eq]
        have hlf : gridrefFormatLoose (String.mk (c1 :: c2 :: rest)) = false := by
          rw [hloose_eq]
          revert hcond
          cases (isAsciiLetter c1 && isAsciiLetter c2 &&
            (stripDollarNewline rest).all isAsciiDigit &&
            ((stripDollarNewline rest).length == 4 ||
             (stripDollarNewline rest).length == 6 ||
             (stripDollarNewline rest).length == 8 ||
             (stripDollarNewline rest).length == 10)) <;> simp
        exact ⟨fun _ => hto,
          fun h _ => by rw [hlf] at h; exact absurd h (by simp),
          fun h _ => by rw [hlf] at h; exact absurd h (by simp)⟩

/-- The input strings the model is faithful on: CPython `str.upper` and
the regex classes are modelled on ASCII codepoints only. -/
def asciiOnly (s : String) : Bool := s.data.all fun c => decide (c.toNat ≤ 127)

/-- Claim C3 counterexample: the claim states `to_osgb36` fails with
InvalidFormat on every string that is not exactly two letters followed by
4, 6, 8 or 10 digits, but the CPython `$` anchor also matches just before
a trailing newline, so the non-conforming ASCII input containing a
trailing newline after NT1234 decodes successfully. -/
theorem C3_counterexample :
    strictGridrefFormat "NT1234\n" = false ∧
    to_osgb36 "NT1234\n" = .ok (312000, 634000, 10000) := by
  exact ⟨by decide, by decide⟩

/-- Claim C3 as amended: on ASCII string input, `to_osgb36` fails with
InvalidFormat exactly on the strings that are not two letters followed by
4, 6, 8 or 10 digits with at most one trailing newline admitted by the
regex `$` anchor; it fails with UnknownRegion exactly on the strings of
that form whose (case-normalized) 2-letter prefix is not an assigned
region code; and it succeeds on every other string. (Non-string input is
outside the embedding: the Lean model is typed.) -/
theorem C3_error_classification (s : String) (hascii : asciiOnly s = true) :
    (to_osgb36 s = .error .InvalidFormat ↔ gridrefFormatLoose s = false) ∧
    (to_osgb36 s = .error .UnknownRegion ↔
      (gridrefFormatLoose s = true ∧ knownRegion s = false)) ∧
    ((∃ v, to_osgb36 s = .ok v) ↔
      (gridrefFormatLoose s = true ∧ knownRegion s = true)) := by
  obtain ⟨h1, h2, h3⟩ := to_osgb36_classify s
  cases hf : gridrefFormatLoose s with
  | false =>
    have ht := h1 hf
    exact ⟨⟨fun _ => rfl, fun _ => ht⟩,
      ⟨fun h => by rw [ht] at h; simp at h, fun ⟨hft, _⟩ => by simp at hft⟩,
      ⟨fun ⟨v, hv⟩ => by rw [ht] at hv; simp at hv, fun ⟨hft, _⟩ => by simp at hft⟩⟩
  | true =>
    cases hk : knownRegion s with
    | false =>
      have ht := h2 hf hk
      exact ⟨⟨fun h => by rw [ht] at h; simp at h, fun hc => by simp at hc⟩,
        ⟨fun _ => ⟨rfl, rfl⟩, fun _ => ht⟩,
        ⟨fun ⟨v, hv⟩ => by rw [ht] at hv; simp at hv,
         fun ⟨_, hkt⟩ => by simp at hkt⟩⟩
    | true =>
      obtain ⟨v, hv⟩ := h3 hf hk
      exact ⟨⟨fun h => by rw [hv] at h; simp at h, fun hc => by simp at hc⟩,
        ⟨fun h => by rw [hv] at h; simp at h, fun ⟨_, hkt⟩ => by simp at hkt⟩,
        ⟨fun _ => ⟨rfl, rfl⟩, fun _ => ⟨v, hv⟩⟩⟩

/-- Claim C3 witness: the amended theorem applied to the concrete
lowercase input zz1234, which is well-formed but names no region. -/
theorem C3_error_classification_witness :
    to_osgb36 "zz1234" = .error .UnknownRegion :=
  (C3_error_classification "zz1234" (by decide)).2.1.mpr ⟨by decide, by decide⟩

/-! ## Helper lemmas: the spatial partitioner -/

lemma foldl_bounds_wf (bs : List Box) : ∀ b : Box, b.wf → (∀ c ∈ bs, c.wf) →
    (bs.foldl (fun acc c =>
      ⟨min acc.minx c.minx, min acc.miny c.miny,
       max acc.maxx c.maxx, max acc.maxy c.maxy⟩) b).wf := by
  induction bs with
  | nil => exact fun b hb _ => hb
  | cons c cs ih =>
    intro b hb hcs
    apply ih
    · exact ⟨le_trans (min_le_left _ _) (le_trans hb.1 (le_max_left _ _)),
             le_trans (min_le_left _ _) (le_trans hb.2 (le_max_left _ _))⟩
    · exact fun d hd => hcs d (by simp [hd])

lemma total_bounds_wf (g : List Box) (hne : g ≠ []) (hwf : ∀ b ∈ g, b.wf) :
    (total_bounds g).wf := by
  match g, hne with
  | b :: bs, _ =>
    exact foldl_bounds_wf bs b (hwf b (by simp)) (fun c hc => hwf c (by simp [hc]))

lemma grid_count_mul (a b s : ℚ) (hs : 0 < s) (hab : a ≤ b) :
    ((((⌈((b + (s - pyMod b s)) - (a - pyMod a s)) / s⌉).toNat : ℕ) : ℚ) * s
      = (b + (s - pyMod b s)) - (a - pyMod a s)) ∧
    1 ≤ (⌈((b + (s - pyMod b s)) - (a - pyMod a s)) / s⌉).toNat := by
  have hlo : a - pyMod a s = s * ⌊a / s⌋ := by rw [pyMod]; ring
  have hhi : b + (s - pyMod b s) = s * ((⌊b / s⌋ : ℚ) + 1) := by rw [pyMod]; ring
  have hfl : ⌊a / s⌋ ≤ ⌊b / s⌋ := by
    apply Int.floor_le_floor
    gcongr
  set d : ℤ := ⌊b / s⌋ + 1 - ⌊a / s⌋ with hd
  have hd1 : 1 ≤ d := by omega
  have hdiff : (b + (s - pyMod b s)) - (a - pyMod a s) = (d : ℚ) * s := by
    rw [hlo, hhi, hd]
    push_cast
    ring
  have hdivd : ((b + (s - pyMod b s)) - (a - pyMod a s)) / s = (d : ℚ) := by
    rw [hdiff]
    field_simp
  have hceil : ⌈((b + (s - pyMod b s)) - (a - pyMod a s)) / s⌉ = d := by
    rw [hdivd]
    exact Int.ceil_intCast d
  have hcast : ((d.toNat : ℕ) : ℚ) = (d : ℚ) := by
    exact_mod_cast congrArg (fun z : ℤ => (z : ℚ)) (Int.toNat_of_nonneg (by omega))
  constructor
  · rw [hceil, hcast, hdiff]
  · rw [hceil]; omega

lemma gridNx_mul (g : List Box) (s : ℚ) (hs : 0 < s)
    (hle : (total_bounds g).minx ≤ (total_bounds g).maxx) :
    ((gridNx g s : ℕ) : ℚ) * s = expMaxX g s - expMinX g s ∧ 1 ≤ gridNx g s := by
  have h := grid_count_mul (total_bounds g).minx (total_bounds g).maxx s hs hle
  exact h

lemma gridNy_mul (g : List Box) (s : ℚ) (hs : 0 < s)
    (hle : (total_bounds g).miny ≤ (total_bounds g).maxy) :
    ((gridNy g s : ℕ) : ℚ) * s = expMaxY g s - expMinY g s ∧ 1 ≤ gridNy g s := by
  have h := grid_count_mul (total_bounds g).miny (total_bounds g).maxy s hs hle
  exact h

lemma expMinX_eq (g : List Box) (s : ℚ) :
    expMinX g s = s * ⌊(total_bounds g).minx / s⌋ := by
  rw [expMinX, pyMod]; ring

lemma expMinY_eq (g : List Box) (s : ℚ) :
    expMinY g s = s * ⌊(total_bounds g).miny / s⌋ := by
  rw [expMinY, pyMod]; ring

lemma expMaxX_eq (g : List Box) (s : ℚ) :
    expMaxX g s = s * ((⌊(total_bounds g).maxx / s⌋ : ℚ) + 1) := by
  rw [expMaxX, pyMod]; ring

lemma expMaxY_eq (g : List Box) (s : ℚ) :
    expMaxY g s = s * ((⌊(total_bounds g).maxy / s⌋ : ℚ) + 1) := by
  rw [expMaxY, pyMod]; ring

lemma gridCells_eq_map (x0 y0 s : ℚ) (nx ny : ℕ) :
    gridCells x0 y0 s nx ny =
      (List.range (ny * nx)).map fun k => gridCell x0 y0 s (k / nx) (k % nx) := by
  induction ny with
  | zero => simp [gridCells]
  | succ n ih =>
    have hB : ((List.range nx).map fun j => gridCell x0 y0 s n j) =
        ((List.range nx).map fun x => n * nx + x).map
          (fun k => gridCell x0 y0 s (k / nx) (k % nx)) := by
      rw [List.map_map]
      apply List.map_congr_left
      intro j hj
      rw [List.mem_range] at hj
      have hnx : 0 < nx := by omega
      have h1 : (n * nx + j) / nx = n := by
        rw [Nat.mul_comm, Nat.mul_add_div hnx, Nat.div_eq_of_lt hj, Nat.add_zero]
      have h2 : (n * nx + j) % nx = j := by
        rw [Nat.mul_comm, Nat.mul_add_mod, Nat.mod_eq_of_lt hj]
      simp only [Function.comp]
      rw [h1, h2]
    calc gridCells x0 y0 s nx (n + 1)
        = gridCells x0 y0 s nx n ++
            ((List.range nx).map fun j => gridCell x0 y0 s n j) := by
          rw [gridCells, gridCells, List.range_succ, List.flatMap_append,
            List.flatMap_singleton]
      _ = (List.range (n * nx)).map (fun k => gridCell x0 y0 s (k / nx) (k % nx)) ++
            ((List.range nx).map fun x => n * nx + x).map
              (fun k => gridCell x0 y0 s (k / nx) (k % nx)) := by rw [ih, hB]
      _ = (List.range ((n + 1) * nx)).map fun k => gridCell x0 y0 s (k / nx) (k % nx) := by
          rw [show (n + 1) * nx = n * nx + nx from by ring, List.range_add, List.map_append]

lemma gridCells_length (x0 y0 s : ℚ) (nx ny : ℕ) :
    (gridCells x0 y0 s nx ny).length = ny * nx := by
  rw [gridCells_eq_map]
  simp

lemma gridCells_get (x0 y0 s : ℚ) (nx ny : ℕ) (k : ℕ)
    (hk : k < (gridCells x0 y0 s nx ny).length) :
    (gridCells x0 y0 s nx ny).get ⟨k, hk⟩ = gridCell x0 y0 s (k / nx) (k % nx) := by
  have he := gridCells_eq_map x0 y0 s nx ny
  revert hk
  rw [he]
  intro hk
  rw [List.get_eq_getElem, List.getElem_map, List.getElem_range]

lemma gridCells_mem (x0 y0 s : ℚ) (nx ny : ℕ) (c : Box) :
    c ∈ gridCells x0 y0 s nx ny ↔
      ∃ i, i < ny ∧ ∃ j, j < nx ∧ gridCell x0 y0 s i j = c := by
  simp [gridCells, List.mem_flatMap, List.mem_map, List.mem_range]

lemma cell_cover_exists (a s x : ℚ) (n : ℕ) (hs : 0 < s) (hn : 1 ≤ n)
    (h1 : a ≤ x) (h2 : x ≤ a + n * s) :
    ∃ j : ℕ, j < n ∧ a + j * s ≤ x ∧ x ≤ a + j * s + s := by
  set t : ℤ := ⌊(x - a) / s⌋ with ht
  have ht0 : (0 : ℤ) ≤ t := Int.floor_nonneg.mpr (div_nonneg (by linarith) hs.le)
  by_cases hc : t < (n : ℤ)
  · have hcast : ((t.toNat : ℕ) : ℚ) = (t : ℚ) := by
      exact_mod_cast congrArg (fun z : ℤ => (z : ℚ)) (Int.toNat_of_nonneg ht0)
    refine ⟨t.toNat, by omega, ?_, ?_⟩
    · have h3 : ((t : ℤ) : ℚ) ≤ (x - a) / s := Int.floor_le _
      have h4 : ((t : ℤ) : ℚ) * s ≤ x - a := (le_div_iff hs).mp h3
      rw [hcast]
      linarith
    · have h5 : (x - a) / s < ((t : ℤ) : ℚ) + 1 := Int.lt_floor_add_one _
      have h6 : x - a < (((t : ℤ) : ℚ) + 1) * s := (div_lt_iff hs).mp h5
      rw [hcast]
      nlinarith
  · have h7 : ((n : ℤ) : ℚ) ≤ (x - a) / s := by
      refine le_trans ?_ (Int.floor_le _)
      exact_mod_cast not_lt.mp hc
    have h8 : ((n : ℕ) : ℚ) * s ≤ x - a := by
      have := (le_div_iff hs).mp h7
      exact_mod_cast this
    have hx : x = a + n * s := le_antisymm h2 (by linarith)
    have hcast : ((n - 1 : ℕ) : ℚ) = (n : ℚ) - 1 := by
      push_cast [Nat.cast_sub hn]
      ring
    refine ⟨n - 1, by omega, ?_, ?_⟩
    · rw [hcast, hx]; nlinarith
    · rw [hcast, hx]; nlinarith

lemma cell_within (a s : ℚ) (n j : ℕ) (hs : 0 < s) (hj : j < n) :
    a ≤ a + j * s ∧ a + j * s + s ≤ a + n * s := by
  constructor
  · have : (0 : ℚ) ≤ (j : ℚ) * s := mul_nonneg (Nat.cast_nonneg j) hs.le
    linarith
  · have hc : ((j : ℚ) + 1) ≤ (n : ℚ) := by exact_mod_cast hj
    nlinarith

lemma cell_open_disjoint (a s : ℚ) (j k : ℕ) (hs : 0 < s) (hjk : j ≠ k) (x : ℚ) :
    ¬((a + j * s < x ∧ x < a + j * s + s) ∧ (a + k * s < x ∧ x < a + k * s + s)) := by
  rintro ⟨⟨h1, h2⟩, h3, h4⟩
  rcases Nat.lt_or_ge j k with h | h
  · have hc : ((j : ℚ) + 1) ≤ (k : ℚ) := by exact_mod_cast h
    nlinarith
  · have hk : k < j := by omega
    have hc : ((k : ℚ) + 1) ≤ (j : ℚ) := by exact_mod_cast hk
    nlinarith

lemma tile_gdf_false_eq (g : List Box) (s ox oy : ℚ) :
    tile_gdf g s ox oy false =
      gridCells (expMinX g s) (expMinY g s) s (gridNx g s) (gridNy g s) := rfl

lemma tile_gdf_true_eq (g : List Box) (s ox oy : ℚ) :
    tile_gdf g s ox oy true =
      (gridCells (expMinX g s) (expMinY g s) s (gridNx g s) (gridNy g s)).filter
        (fun c => g.any fun b => boxIntersects c b) := rfl

lemma gridCells_mem_side {x0 y0 s : ℚ} {nx ny : ℕ} {c : Box}
    (hc : c ∈ gridCells x0 y0 s nx ny) :
    c.maxx = c.minx + s ∧ c.maxy = c.miny + s := by
  rcases (gridCells_mem x0 y0 s nx ny c).mp hc with ⟨i, _, j, _, rfl⟩
  exact ⟨rfl, rfl⟩

lemma gridCells_mem_wf {x0 y0 s : ℚ} {nx ny : ℕ} {c : Box} (hs : 0 < s)
    (hc : c ∈ gridCells x0 y0 s nx ny) : c.wf := by
  obtain ⟨hx, hy⟩ := gridCells_mem_side hc
  exact ⟨by rw [hx]; linarith, by rw [hy]; linarith⟩

lemma boxIntersects_iff {a b : Box} (ha : a.wf) (hb : b.wf) :
    boxIntersects a b = true ↔ Intersects a b := by
  constructor
  · intro h
    simp only [boxIntersects, Bool.and_eq_true, decide_eq_true_eq] at h
    refine ⟨(max a.minx b.minx, max a.miny b.miny),
      ⟨le_max_left _ _, max_le ha.1 h.1.1.2, le_max_left _ _, max_le ha.2 h.2⟩,
      ⟨le_max_right _ _, max_le h.1.1.1 hb.1, le_max_right _ _, max_le h.1.2 hb.2⟩⟩
  · rintro ⟨p, hpa, hpb⟩
    simp only [boxIntersects, Bool.and_eq_true, decide_eq_true_eq]
    exact ⟨⟨⟨le_trans hpa.1 hpb.2.1, le_trans hpb.1 hpa.2.1⟩,
      le_trans hpa.2.2.1 hpb.2.2.2⟩, le_trans hpb.2.2.1 hpa.2.2.2⟩

/-! ## Claim theorems: the spatial partitioner (C4, C5, C10) -/

/-- Claim C4 counterexample: for the boundary whose bounding box is the
square from (0,0) to (10,10) and side length 5, the bounding box is
already aligned, so expanding it outward to the nearest multiples of 5
leaves it unchanged and would give ceil(10/5) * ceil(10/5) = 4 cells
tiling it; the source instead moves the max corner to 15 and returns 9
cells, among them one reaching outside the claimed expanded box. -/
theorem C4_counterexample :
    Box.mk 10 10 15 15 ∈ tile_gdf [⟨0, 0, 10, 10⟩] 5 0 0 false ∧
    (tile_gdf [⟨0, 0, 10, 10⟩] 5 0 0 false).length = 9 ∧
    ¬((tile_gdf [⟨0, 0, 10, 10⟩] 5 0 0 false).length =
      (⌈((10 : ℚ) - 0) / 5⌉).toNat * (⌈((10 : ℚ) - 0) / 5⌉).toNat) := by
  refine ⟨by with_unfolding_all decide, by with_unfolding_all decide,
    by with_unfolding_all decide⟩

/-- Claim C4 as amended: for every nonempty boundary of well-formed
rectangles and positive side length, `tile_gdf` with `filter_empty=false`
expands the bounding box down to the largest multiple of the side length
at or below each min coordinate and up to the smallest multiple strictly
above each max coordinate (a full extra cell when the max is already
aligned), and returns exactly the cells of that expanded box in row-major
order: their number is `ceil(width/s) * ceil(height/s)` of the expanded
box, the cell at position k is the one in row `k / nx` and column
`k % nx`, every point of the expanded box lies in some returned cell,
and distinct returned cells have disjoint interiors. -/
theorem C4_grid_tiling (g : List Box) (s ox oy : ℚ)
    (hne : g ≠ []) (hwf : ∀ b ∈ g, b.wf) (hs : 0 < s) :
    expMinX g s = s * ⌊(total_bounds g).minx / s⌋ ∧
    expMaxX g s = s * ((⌊(total_bounds g).maxx / s⌋ : ℚ) + 1) ∧
    expMinY g s = s * ⌊(total_bounds g).miny / s⌋ ∧
    expMaxY g s = s * ((⌊(total_bounds g).maxy / s⌋ : ℚ) + 1) ∧
    (tile_gdf g s ox oy false).length = gridNy g s * gridNx g s ∧
    (∀ k (hk : k < (tile_gdf g s ox oy false).length),
      (tile_gdf g s ox oy false).get ⟨k, hk⟩ =
        gridCell (expMinX g s) (expMinY g s) s (k / gridNx g s) (k % gridNx g s)) ∧
    (∀ p : ℚ × ℚ,
      (expMinX g s ≤ p.1 ∧ p.1 ≤ expMaxX g s ∧
       expMinY g s ≤ p.2 ∧ p.2 ≤ expMaxY g s) ↔
        ∃ c ∈ tile_gdf g s ox oy false, inBox p c) ∧
    (∀ k1 k2 (hk1 : k1 < (tile_gdf g s ox oy false).length)
        (hk2 : k2 < (tile_gdf g s ox oy false).length), k1 ≠ k2 →
      ∀ p : ℚ × ℚ,
        ¬(inOpenBox p ((tile_gdf g s ox oy false).get ⟨k1, hk1⟩) ∧
          inOpenBox p ((tile_gdf g s ox oy false).get ⟨k2, hk2⟩))) := by
  have hBwf := total_bounds_wf g hne hwf
  obtain ⟨hxmul, hx1⟩ := gridNx_mul g s hs hBwf.1
  obtain ⟨hymul, hy1⟩ := gridNy_mul g s hs hBwf.2
  refine ⟨expMinX_eq g s, expMaxX_eq g s, expMinY_eq g s, expMaxY_eq g s, ?_, ?_, ?_, ?_⟩
  · rw [tile_gdf_false_eq, gridCells_length]
  · intro k hk
    exact gridCells_get (expMinX g s) (expMinY g s) s (gridNx g s) (gridNy g s) k hk
  · intro p
    constructor
    · rintro ⟨hx0, hx2, hy0, hy2⟩
      obtain ⟨j, hj, hj1, hj2⟩ := cell_cover_exists (expMinX g s) s p.1 (gridNx g s)
        hs hx1 hx0 (by rw [mul_comm] at hxmul; linarith)
      obtain ⟨i, hi, hi1, hi2⟩ := cell_cover_exists (expMinY g s) s p.2 (gridNy g s)
        hs hy1 hy0 (by rw [mul_comm] at hymul; linarith)
      refine ⟨gridCell (expMinX g s) (expMinY g s) s i j, ?_, ?_⟩
      · rw [tile_gdf_false_eq]
        exact (gridCells_mem _ _ _ _ _ _).mpr ⟨i, hi, j, hj, rfl⟩
      · exact ⟨hj1, hj2, hi1, hi2⟩
    · rintro ⟨c, hc, hpc⟩
      rw [tile_gdf_false_eq] at hc
      rcases (gridCells_mem _ _ _ _ _ _).mp hc with ⟨i, hi, j, hj, rfl⟩
      obtain ⟨hxa, hxb⟩ := cell_within (expMinX g s) s (gridNx g s) j hs hj
      obtain ⟨hya, hyb⟩ := cell_within (expMinY g s) s (gridNy g s) i hs hi
      rcases hpc with ⟨h1, h2, h3, h4⟩
      refine ⟨le_trans hxa h1, ?_, le_trans hya h3, ?_⟩
      · rw [mul_comm] at hxmul
        refine le_trans h2 (le_trans hxb ?_)
        linarith
      · rw [mul_comm] at hymul
        refine le_trans h4 (le_trans hyb ?_)
        linarith
  · intro k1 k2 hk1 hk2 hne12 p hcontra
    have hg1 : (tile_gdf g s ox oy false).get ⟨k1, hk1⟩ =
        gridCell (expMinX g s) (expMinY g s) s (k1 / gridNx g s) (k1 % gridNx g s) :=
      gridCells_get (expMinX g s) (expMinY g s) s (gridNx g s) (gridNy g s) k1 hk1
    have hg2 : (tile_gdf g s ox oy false).get ⟨k2, hk2⟩ =
        gridCell (expMinX g s) (expMinY g s) s (k2 / gridNx g s) (k2 % gridNx g s) :=
      gridCells_get (expMinX g s) (expMinY g s) s (gridNx g s) (gridNy g s) k2 hk2
    rcases hcontra with ⟨ho1, ho2⟩
    rw [hg1] at ho1
    rw [hg2] at ho2
    have hnx0 : 0 < gridNx g s := hx1
    by_cases hj : k1 % gridNx g s = k2 % gridNx g s
    · have hi : k1 / gridNx g s ≠ k2 / gridNx g s := by
        intro hieq
        apply hne12
        have e1 := Nat.div_add_mod k1 (gridNx g s)
        have e2 := Nat.div_add_mod k2 (gridNx g s)
        rw [← e1, hieq, hj]
        exact e2
      exact cell_open_disjoint (expMinY g s) s (k1 / gridNx g s) (k2 / gridNx g s)
        hs hi p.2 ⟨⟨ho1.2.2.1, ho1.2.2.2⟩, ⟨ho2.2.2.1, ho2.2.2.2⟩⟩
    · exact cell_open_disjoint (expMinX g s) s (k1 % gridNx g s) (k2 % gridNx g s)
        hs hj p.1 ⟨⟨ho1.1, ho1.2.1⟩, ⟨ho2.1, ho2.2.1⟩⟩

/-- Claim C4 witness: the tiling theorem applied to the square boundary
from (0,0) to (10,10) with side length 5. -/
theorem C4_grid_tiling_witness :
    (tile_gdf [⟨0, 0, 10, 10⟩] 5 0 0 false).length =
      gridNy [⟨0, 0, 10, 10⟩] 5 * gridNx [⟨0, 0, 10, 10⟩] 5 :=
  (C4_grid_tiling [⟨0, 0, 10, 10⟩] 5 0 0 (by simp)
    (by
      intro b hb
      rw [List.mem_singleton] at hb
      subst hb
      exact ⟨by norm_num, by norm_num⟩)
    (by norm_num)).2.2.2.2.1

/-- Claim C5: for every boundary of well-formed rectangles and positive
side length, the filtered partition is a sublist selection of the
unfiltered one, and a candidate cell is kept exactly when it shares at
least one point (boundary touching included) with the repaired, unioned
boundary — for a union of rectangles the validity repair is the identity
and intersecting the union is intersecting some member. Every excluded
cell therefore intersects no member. -/
theorem C5_filter_intersects (g : List Box) (s ox oy : ℚ)
    (hs : 0 < s) (hwf : ∀ b ∈ g, b.wf) :
    (∀ c, c ∈ tile_gdf g s ox oy true → c ∈ tile_gdf g s ox oy false) ∧
    (∀ c, c ∈ tile_gdf g s ox oy true ↔
      (c ∈ tile_gdf g s ox oy false ∧ ∃ b ∈ g, Intersects c b)) := by
  constructor
  · intro c hc
    rw [tile_gdf_true_eq] at hc
    rw [tile_gdf_false_eq]
    exact (List.mem_filter.mp hc).1
  · intro c
    rw [tile_gdf_true_eq, tile_gdf_false_eq]
    rw [List.mem_filter]
    constructor
    · rintro ⟨hmem, hany⟩
      refine ⟨hmem, ?_⟩
      rw [List.any_eq_true] at hany
      rcases hany with ⟨b, hb, hib⟩
      exact ⟨b, hb, (boxIntersects_iff (gridCells_mem_wf hs hmem) (hwf b hb)).mp hib⟩
    · rintro ⟨hmem, b, hb, hint⟩
      refine ⟨hmem, ?_⟩
      rw [List.any_eq_true]
      exact ⟨b, hb, (boxIntersects_iff (gridCells_mem_wf hs hmem) (hwf b hb)).mpr hint⟩

/-- Claim C5 witness: with the boundary square from (0,0) to (10,10) and
side length 5, the cell at the origin intersects the boundary and is kept
by the filtered partition. -/
theorem C5_filter_intersects_witness :
    Box.mk 0 0 5 5 ∈ tile_gdf [⟨0, 0, 10, 10⟩] 5 0 0 true :=
  ((C5_filter_intersects [⟨0, 0, 10, 10⟩] 5 0 0 (by norm_num)
    (by
      intro b hb
      rw [List.mem_singleton] at hb
      subst hb
      exact ⟨by norm_num, by norm_num⟩)).2 ⟨0, 0, 5, 5⟩).mpr
    ⟨by with_unfolding_all decide,
     ⟨0, 0, 10, 10⟩, by simp,
     ⟨(0, 0), ⟨by norm_num, by norm_num, by norm_num, by norm_num⟩,
       ⟨by norm_num, by norm_num, by norm_num, by norm_num⟩⟩⟩

/-- Claim C10: the `origin_x` and `origin_y` parameters of `tile_gdf` are
never read by its body, so any two origins produce identical output for
every boundary, side length and filter flag: the grid is always aligned
to multiples of the side length relative to coordinate zero. -/
theorem C10_origin_ignored (g : List Box) (s ox1 oy1 ox2 oy2 : ℚ) (fe : Bool) :
    tile_gdf g s ox1 oy1 fe = tile_gdf g s ox2 oy2 fe := rfl

/-! ## Helper lemmas: dedup -/

lemma count_eq_one_of_nodup_mem {α : Type} [BEq α] [LawfulBEq α] {l : List α} {a : α}
    (hnd : l.Nodup) (ha : a ∈ l) : l.count a = 1 := by
  induction l with
  | nil => simp at ha
  | cons x xs ih =>
    rw [List.count_cons]
    rcases List.mem_cons.mp ha with rfl | hmem
    · have hnotin : a ∉ xs := (List.nodup_cons.mp hnd).1
      have hc0 : xs.count a = 0 := List.count_eq_zero.mpr hnotin
      simp [hc0]
    · have hne : ¬(x == a) = true := by
        intro hbeq
        have hxa : x = a := eq_of_beq hbeq
        subst hxa
        exact (List.nodup_cons.mp hnd).1 hmem
      have hcx := ih (List.nodup_cons.mp hnd).2 hmem
      simp [hcx, hne]

lemma mem_dropDuplicatesAux {α : Type} [DecidableEq α] (l : List α) :
    ∀ (seen : List α) (a : α),
      a ∈ dropDuplicatesAux seen l ↔ a ∈ l ∧ a ∉ seen := by
  induction l with
  | nil => intro seen a; simp [dropDuplicatesAux]
  | cons x xs ih =>
    intro seen a
    by_cases hx : x ∈ seen
    · rw [dropDuplicatesAux, if_pos hx, ih]
      constructor
      · rintro ⟨h1, h2⟩
        exact ⟨List.mem_cons_of_mem _ h1, h2⟩
      · rintro ⟨h1, h2⟩
        rcases List.mem_cons.mp h1 with rfl | h1
        · exact absurd hx h2
        · exact ⟨h1, h2⟩
    · rw [dropDuplicatesAux, if_neg hx, List.mem_cons, ih]
      simp only [List.mem_cons, not_or]
      constructor
      · rintro (rfl | ⟨h1, hne, h2⟩)
        · exact ⟨Or.inl rfl, hx⟩
        · exact ⟨Or.inr h1, h2⟩
      · rintro ⟨rfl | h1, h2⟩
        · exact Or.inl rfl
        · by_cases hax : a = x
          · exact Or.inl hax
          · exact Or.inr ⟨h1, hax, h2⟩

lemma nodup_dropDuplicatesAux {α : Type} [DecidableEq α] (l : List α) :
    ∀ seen : List α, (dropDuplicatesAux seen l).Nodup := by
  induction l with
  | nil => intro seen; exact List.nodup_nil
  | cons x xs ih =>
    intro seen
    by_cases hx : x ∈ seen
    · rw [dropDuplicatesAux, if_pos hx]; exact ih seen
    · rw [dropDuplicatesAux, if_neg hx]
      refine List.nodup_cons.mpr ⟨?_, ih _⟩
      intro hc
      rcases (mem_dropDuplicatesAux xs (x :: seen) x).mp hc with ⟨-, h2⟩
      exact h2 (List.mem_cons_self _ _)

/-! ## Claim theorems: harvest dedup and geometry (C6, C7) -/

/-- Claim C6: after flattening, rows that are equal on all flattened
columns are collapsed to one — `df[~df.duplicated()]` keeps exactly the
first occurrence of every distinct row — and the persisted index, which
attaches to each surviving row a geometry derived deterministically from
it, contains no two fully equal rows: each input row occurs exactly once
in it. The derived geometry is abstracted as an arbitrary function of the
row, which `parse_geometry` instantiates. -/
theorem C6_dedup_unique (rows : List Row) (geom : Row → Box) :
    ((dropDuplicates rows).map fun r => (r, geom r)).Nodup ∧
    (∀ r, r ∈ rows →
      ((dropDuplicates rows).map fun r => (r, geom r)).count (r, geom r) = 1) := by
  have hmem : ∀ r, r ∈ dropDuplicates rows ↔ r ∈ rows := by
    intro r
    rw [dropDuplicates, mem_dropDuplicatesAux]
    simp
  have hnd : (dropDuplicates rows).Nodup := nodup_dropDuplicatesAux rows []
  have hinj : Function.Injective (fun r : Row => (r, geom r)) := by
    intro a b hab
    exact congrArg Prod.fst hab
  constructor
  · exact List.Nodup.map hinj hnd
  · intro r hr
    exact count_eq_one_of_nodup_mem (List.Nodup.map hinj hnd)
      (List.mem_map_of_mem _ ((hmem r).mpr hr))

/-- Claim C6 witness: three rows, the first and third fully equal,
collapse so that the repeated row occurs exactly once in the index. -/
theorem C6_dedup_unique_witness :
    ((dropDuplicates [["a"], ["b"], ["a"]]).map
      fun r => (r, Box.mk 0 0 0 0)).count (["a"], Box.mk 0 0 0 0) = 1 :=
  (C6_dedup_unique [["a"], ["b"], ["a"]] (fun _ => Box.mk 0 0 0 0)).2 ["a"] (by simp)

/-- Claim C7: every harvested row whose tile reference decodes to
(x, y, resolution) receives as geometry the axis-aligned square with min
corner (x, y) extending exactly resolution/2 in both axes, i.e.
`box(x, y, x + resolution/2, y + resolution/2)` (the EPSG:27700 CRS tag
of the resulting frame is metadata outside the geometric model). -/
theorem C7_half_resolution_square (t : String) (x y res : ℤ)
    (h : to_osgb36 t = .ok (x, y, res)) :
    parse_geometry_row t =
      .ok (Box.mk (x : ℚ) (y : ℚ) ((x : ℚ) + (res : ℚ) / 2) ((y : ℚ) + (res : ℚ) / 2)) ∧
    (∀ b, parse_geometry_row t = .ok b →
      b.minx = (x : ℚ) ∧ b.miny = (y : ℚ) ∧
      b.maxx - b.minx = (res : ℚ) / 2 ∧ b.maxy - b.miny = (res : ℚ) / 2) := by
  have h1 : parse_geometry_row t =
      .ok (Box.mk (x : ℚ) (y : ℚ) ((x : ℚ) + (res : ℚ) / 2) ((y : ℚ) + (res : ℚ) / 2)) := by
    rw [parse_geometry_row, h]
    rfl
  refine ⟨h1, ?_⟩
  intro b hb
  rw [h1] at hb
  injection hb with hb
  subst hb
  exact ⟨rfl, rfl, by ring, by ring⟩

/-- Claim C7 witness: the geometry derived for NT2755072950, which
decodes with resolution 10 and so spans a square of side 5. -/
theorem C7_half_resolution_square_witness :
    parse_geometry_row "NT2755072950" = .ok (Box.mk 327550 672950 327555 672955) := by
  have h := (C7_half_resolution_square "NT2755072950" 327550 672950 10 (by decide)).1
  rw [h]
  norm_num

/-! ## Claim theorems: the serving endpoint (C8, C9) -/

/-- Claim C8 evaluation: the source reads
`list(tile_dir.glob("*.tif"))[0]` before entering its `try` block, so a
request served while the raster directory lists no `.tif` file raises
IndexError past the transport boundary instead of returning the blank
tile — the claim's contract is violated there. Inside the `try` block the
contract does hold: a failing windowed read is answered with the blank
transparent tile. -/
theorem C8_empty_listing_escapes :
    get_tile ⟨[], fun _ _ _ _ => .error "ReadError"⟩ 0 0 0 =
      .error "IndexError: list index out of range" ∧
    get_tile ⟨["a.tif"], fun _ _ _ _ => .error "ReadError"⟩ 0 0 0 = .ok blankTile :=
  ⟨rfl, rfl⟩

lemma maskVal_eq (p : ℤ × ℤ × ℤ) :
    (maskVal p = 255 ↔ ¬(pyClip p.1 = 0 ∧ pyClip p.2.1 = 0 ∧ pyClip p.2.2 = 0)) ∧
    (maskVal p = 0 ↔ (pyClip p.1 = 0 ∧ pyClip p.2.1 = 0 ∧ pyClip p.2.2 = 0)) := by
  by_cases h : pyClip p.1 = 0 ∧ pyClip p.2.1 = 0 ∧ pyClip p.2.2 = 0
  · have hcond : ¬(pyClip p.1 ≠ 0 ∨ pyClip p.2.1 ≠ 0 ∨ pyClip p.2.2 ≠ 0) := by tauto
    rw [maskVal, if_neg hcond]
    constructor
    · constructor
      · intro hc; norm_num at hc
      · intro hc; exact absurd h hc
    · constructor
      · intro _; exact h
      · intro _; norm_num
  · have hcond : pyClip p.1 ≠ 0 ∨ pyClip p.2.1 ≠ 0 ∨ pyClip p.2.2 ≠ 0 := by tauto
    rw [maskVal, if_pos hcond]
    constructor
    · constructor
      · intro _; exact h
      · intro _; norm_num
    · constructor
      · intro hc; norm_num at hc
      · intro hc; exact absurd hc h

/-- Claim C9: compositing preserves the array shape, each output pixel is
the three clipped bands plus the mask band, and the alpha of each pixel
is 255 exactly when at least one clipped band is non-zero and 0 exactly
when all three clipped bands are zero; the bands are clipped to [0, 255]
before the mask is computed, as `compositePixel` applies `maskVal` to the
clipped values. -/
theorem C9_alpha_mask (data : List (List (ℤ × ℤ × ℤ))) (i j : ℕ)
    (hi : i < data.length) (hj : j < (data.getD i []).length) :
    (compositeRGBA data).length = data.length ∧
    ((compositeRGBA data).getD i []).length = (data.getD i []).length ∧
    ((compositeRGBA data).getD i []).getD j (0, 0, 0, 0) =
      compositePixel ((data.getD i []).getD j (0, 0, 0)) ∧
    ((((compositeRGBA data).getD i []).getD j (0, 0, 0, 0)).2.2.2 = 255 ↔
      ¬(pyClip ((data.getD i []).getD j (0, 0, 0)).1 = 0 ∧
        pyClip ((data.getD i []).getD j (0, 0, 0)).2.1 = 0 ∧
        pyClip ((data.getD i []).getD j (0, 0, 0)).2.2 = 0)) ∧
    ((((compositeRGBA data).getD i []).getD j (0, 0, 0, 0)).2.2.2 = 0 ↔
      (pyClip ((data.getD i []).getD j (0, 0, 0)).1 = 0 ∧
       pyClip ((data.getD i []).getD j (0, 0, 0)).2.1 = 0 ∧
       pyClip ((data.getD i []).getD j (0, 0, 0)).2.2 = 0)) := by
  have hlen : (compositeRGBA data).length = data.length := by
    show (data.map fun row => row.map compositePixel).length = data.length
    rw [List.length_map]
  have hrow : (compositeRGBA data).getD i [] = ((data.getD i []).map compositePixel) := by
    show (data.map fun row => row.map compositePixel).getD i [] = _
    rw [List.getD_eq_getElem?_getD, List.getD_eq_getElem?_getD, List.getElem?_map]
    cases data[i]? with
    | none => rfl
    | some row => rfl
  have hrlen : ((compositeRGBA data).getD i []).length = (data.getD i []).length := by
    rw [hrow, List.length_map]
  have hgen : ∀ (row : List (ℤ × ℤ × ℤ)) (n : ℕ),
      (row.map compositePixel).getD n (0, 0, 0, 0) = compositePixel (row.getD n (0, 0, 0)) := by
    intro row n
    rw [List.getD_eq_getElem?_getD, List.getD_eq_getElem?_getD, List.getElem?_map]
    cases row[n]? with
    | none => decide
    | some p => rfl
  have hpix : ((compositeRGBA data).getD i []).getD j (0, 0, 0, 0) =
      compositePixel ((data.getD i []).getD j (0, 0, 0)) := by
    rw [hrow]
    exact hgen _ j
  have halpha : (compositePixel ((data.getD i []).getD j (0, 0, 0))).2.2.2 =
      maskVal ((data.getD i []).getD j (0, 0, 0)) := rfl
  obtain ⟨hm1, hm2⟩ := maskVal_eq ((data.getD i []).getD j (0, 0, 0))
  refine ⟨hlen, hrlen, hpix, ?_, ?_⟩
  · rw [hpix, halpha]; exact hm1
  · rw [hpix, halpha]; exact hm2

/-- Claim C9 witness: a 1x2 array whose first pixel is all-zero (alpha 0)
and whose second pixel has one positive, one overflowing and one negative
band (alpha 255 after clipping). -/
theorem C9_alpha_mask_witness :
    (((compositeRGBA [[(0, 0, 0), (5, 300, -2)]]).getD 0 []).getD 1 (0, 0, 0, 0)).2.2.2 = 255 :=
  ((C9_alpha_mask [[(0, 0, 0), (5, 300, -2)]] 0 1 (by decide)
    (by decide)).2.2.2.1).mpr (by decide)

end ImageryApi
